import Mathlib

/-!
# Verification of the PDF question-extraction core (pdf_extractor.py)

This file is a shallow embedding of the algorithmic core of
`PDFContentExtractor` (pdf_extractor.py): the line cleaner
(`clean_text_line`), the question boundary scanner
(`parse_questions_from_text`), the image associator
(`_associate_images_with_questions`), and the per-page aggregation loop
(`extract_all_content`).

Strings are modelled at the `List Char` level so that every function is a
plain structural (or length-decreasing) recursion; the small regular
expressions used by the scanner are expanded into explicit character-level
matchers whose backtracking behaviour is reproduced case by case:

* `^(\d+)\.\s*(.+)`   → `qMatchL`   (question-start, with groups)
* `^\d+\.`            → `numDotL`   (lookahead stop test)
* `^\[?[A-D]\]`       → `optStopL`  (lookahead stop test; the `]` is mandatory)
* `^\[?([A-D])\]?\s*(.+)?` → `optMatchL` (option line, with groups)
* `Ans\.?\s*\[?([A-D])\]?` → `ansSearchL` (re.search, tried at every position)

The external PDF engines (PyMuPDF / pdfplumber) are out of scope; the
aggregator is modelled over an arbitrary list of per-page outcomes, each
either a failure message or the page's extracted text and image paths.
-/

namespace PDFExtract

/-- Letters recognised by the option/answer patterns (`[A-D]`). -/
def isOptLetter (c : Char) : Bool :=
  c == 'A' || c == 'B' || c == 'C' || c == 'D'

/-- Whitespace test modelling Python's `\s` / `str.strip()` / `str.split()`. -/
def isWs (c : Char) : Bool := c.isWhitespace

/-- Python `str.strip()`: drop whitespace from both ends. -/
def pstrip (cs : List Char) : List Char :=
  ((cs.dropWhile isWs).reverse.dropWhile isWs).reverse

/-- Helper for `splitNl`: accumulate the current chunk (reversed). -/
def splitNlAux (acc : List Char) : List Char → List (List Char)
  | [] => [acc.reverse]
  | c :: r => if c = '\n' then acc.reverse :: splitNlAux [] r else splitNlAux (c :: acc) r

/-- Python `text.split('\n')`. -/
def splitNl (cs : List Char) : List (List Char) := splitNlAux [] cs

/-- Helper for Python `str.split()` (no argument): split on whitespace runs,
dropping empty pieces; `acc` is the current word, reversed. -/
def wordsAux (acc : List Char) : List Char → List (List Char)
  | [] => if acc.isEmpty then [] else [acc.reverse]
  | c :: r =>
    if isWs c then
      if acc.isEmpty then wordsAux [] r else acc.reverse :: wordsAux [] r
    else wordsAux (c :: acc) r

/-- Python `' '.join(words)`. -/
def joinSpace : List (List Char) → List Char
  | [] => []
  | [w] => w
  | w :: ws => w ++ ' ' :: joinSpace ws

/-- Python `clean_text_line`: `' '.join(line.split())`, then two `replace('', '')`
calls (no-ops), then `.strip()`. -/
def clean_text_line (cs : List Char) : List Char :=
  pstrip (joinSpace (wordsAux [] cs))

/-- The line list `[clean_text_line(line) for line in text.split('\n') if line.strip()]`. -/
def pageLines (text : List Char) : List (List Char) :=
  ((splitNl text).filter (fun l => !(pstrip l).isEmpty)).map clean_text_line

/-- Python `int(...)` on the digit group of a match (ASCII decimal digits). -/
def digitsVal (ds : List Char) : Nat :=
  ds.foldl (fun a c => a * 10 + (c.toNat - 48)) 0

/-- The test `re.match(r'^(\d+)\.\s*(.+)', line)`: a maximal leading digit run, a
period, then `\s*` and a non-empty remainder (when everything after the
period is whitespace, the regex engine backtracks and group 2 is the final
whitespace character). Returns `(int(group(1)), group(2))`. -/
def qMatchL (cs : List Char) : Option (Nat × List Char) :=
  let ds := cs.takeWhile Char.isDigit
  if ds.isEmpty then none
  else
    match cs.drop ds.length with
    | '.' :: r2 =>
      if r2.isEmpty then none
      else
        let t := r2.dropWhile isWs
        if t.isEmpty then some (digitsVal ds, r2.drop (r2.length - 1))
        else some (digitsVal ds, t)
    | _ => none

/-- The test `re.match(r'^\d+\.', line)`. -/
def numDotL (cs : List Char) : Bool :=
  let ds := cs.takeWhile Char.isDigit
  !ds.isEmpty &&
    (match cs.drop ds.length with | '.' :: _ => true | _ => false)

/-- The test `re.match(r'^\[?[A-D]\]', line)`: optional `[`, a letter A–D,
then a mandatory `]`. -/
def optStopL (cs : List Char) : Bool :=
  match cs with
  | '[' :: c :: ']' :: _ => isOptLetter c
  | c :: ']' :: _ => isOptLetter c
  | _ => false

/-- Continuation of the option regex after its letter: optional `]`, then
`\s*`; what remains is `group(2)` (the empty list models a missing group). -/
def afterLetter (r : List Char) : List Char :=
  let r1 := match r with | ']' :: r' => r' | _ => r
  r1.dropWhile isWs

/-- The match `re.match(r'^\[?([A-D])\]?\s*(.+)?', line)`:
gives `(group(1), group(2) or "")`. -/
def optMatchL (cs : List Char) : Option (Char × List Char) :=
  match cs with
  | '[' :: c :: r => if isOptLetter c then some (c, afterLetter r) else none
  | c :: r => if isOptLetter c then some (c, afterLetter r) else none
  | [] => none

/-- One attempt of `Ans\.?\s*\[?([A-D])\]?` anchored at the head of `cs`. -/
def ansMatchAt (cs : List Char) : Option Char :=
  match cs with
  | 'A' :: 'n' :: 's' :: r =>
    let r1 := match r with | '.' :: r' => r' | _ => r
    let r2 := r1.dropWhile isWs
    let r3 := match r2 with | '[' :: r' => r' | _ => r2
    (match r3 with
     | c :: _ => if isOptLetter c then some c else none
     | [] => none)
  | _ => none

/-- The search `re.search(r'Ans\.?\s*\[?([A-D])\]?', line)`: the anchored attempt tried
at every start position, leftmost match wins. -/
def ansSearchL : List Char → Option Char
  | [] => none
  | c :: r =>
    match ansMatchAt (c :: r) with
    | some a => some a
    | none => ansSearchL r

/-- The test `line.startswith('Ans')`. -/
def startsWithAns (cs : List Char) : Bool :=
  match cs with
  | 'A' :: 'n' :: 's' :: _ => true
  | _ => false

/-- The fixed skip list `['Vedantu', 'LIVE ONLINE TUTORING', 'www.vedantu.com']`. -/
def boilerplateL : List (List Char) :=
  [['V', 'e', 'd', 'a', 'n', 't', 'u'],
   ['L', 'I', 'V', 'E', ' ', 'O', 'N', 'L', 'I', 'N', 'E', ' ',
    'T', 'U', 'T', 'O', 'R', 'I', 'N', 'G'],
   ['w', 'w', 'w', '.', 'v', 'e', 'd', 'a', 'n', 't', 'u', '.', 'c', 'o', 'm']]

/-- The continuation-lookahead stop condition (lines 173–177):
`re.match(r'^\[?[A-D]\]', next) or next.startswith('Ans') or
re.match(r'^\d+\.', next) or next in ['??', '?'] or not next`,
where `next = lines[j].strip()`. -/
def contStop (l : List Char) : Bool :=
  let n := pstrip l
  optStopL n || startsWithAns n || numDotL n ||
    n == ['?', '?'] || n == ['?'] || n.isEmpty

/-- One finalized question dict (image fields are filled in later by the
associator; `page` is the 1-based page index `page_num + 1`). -/
structure QuestionRec where
  question_number : Option Nat
  question : String
  options : List String
  answer : Option Char
  page : Nat
  images : String
  option_images : List String
deriving DecidableEq

/-- The dict appended on finalization of the active accumulator. -/
def finalizeRec (page_num : Nat) (qn : Option Nat) (q : List Char)
    (opts : List String) (ans : Option Char) : QuestionRec :=
  ⟨qn, String.mk q, opts, ans, page_num + 1, "", []⟩

/-- The update `current_question += " " + next_line` over the consumed continuation
lines (each `next_line` is `lines[j].strip()`). -/
def contJoin (t : List Char) (conts : List (List Char)) : List Char :=
  conts.foldl (fun a l => a ++ ' ' :: pstrip l) t

/-- The entry `f"[{option_letter}] {option_text}".strip()`. -/
def optionEntry (c : Char) (txt : List Char) : String :=
  String.mk (pstrip ('[' :: c :: ']' :: ' ' :: txt))

/-- The `while i < len(lines)` loop of `parse_questions_from_text`, carried
state: `question_number` (`qn`), `current_question` (`cq`),
`current_options` (`opts`), `current_answer` (`ans`). The inner
continuation lookahead (`j`-loop, lines 168–183) consumes exactly the
lines up to the first one satisfying `contStop` — the `takeWhile` part —
and the outer loop resumes at that stop line — the `dropWhile` part
(`i = j - 1` followed by `i += 1`). -/
def scanAux (page_num : Nat) (qn : Option Nat) (cq : Option (List Char))
    (opts : List String) (ans : Option Char) :
    List (List Char) → List QuestionRec
  | [] =>
    match cq with
    | some q => [finalizeRec page_num qn q opts ans]
    | none => []
  | l :: rest =>
    let line := pstrip l
    if line.isEmpty || boilerplateL.contains line then
      scanAux page_num qn cq opts ans rest
    else
      match qMatchL line with
      | some (n, t) =>
        (match cq with
         | some q => [finalizeRec page_num qn q opts ans]
         | none => []) ++
        scanAux page_num (some n)
          (some (contJoin (pstrip t) (rest.takeWhile (fun x => !contStop x))))
          [] none (rest.dropWhile (fun x => !contStop x))
      | none =>
        match optMatchL line with
        | some (c, txt) =>
          scanAux page_num qn cq (opts ++ [optionEntry c txt]) ans rest
        | none =>
          if startsWithAns line then
            match ansSearchL line with
            | some a => scanAux page_num qn cq opts (some a) rest
            | none => scanAux page_num qn cq opts ans rest
          else
            scanAux page_num qn cq opts ans rest
termination_by ls => ls.length
decreasing_by
  all_goals simp only [List.length_cons]
  all_goals
    first
    | omega
    | (have h := (List.dropWhile_sublist (l := rest)
          (p := fun x => !contStop x)).length_le
       omega)

/-- Body of the `for i, question in enumerate(questions)` loop of
`_associate_images_with_questions`: chunk `[i*k, min(i*k + k, n))`. -/
def assign (k : Nat) (page_images : List String) (i : Nat)
    (q : QuestionRec) : QuestionRec :=
  let s := i * k
  let e := min (s + k) page_images.length
  if s < page_images.length then
    { q with
        images := page_images.getD s "",
        option_images :=
          if s + 1 < e then (page_images.drop (s + 1)).take (e - (s + 1))
          else [] }
  else q

/-- The enumerate loop itself, `i` running from the given start index. -/
def assocAux (k : Nat) (page_images : List String) :
    Nat → List QuestionRec → List QuestionRec
  | _, [] => []
  | i, q :: rest => assign k page_images i q :: assocAux k page_images (i + 1) rest

/-- Function `_associate_images_with_questions` (returning the updated list instead of
mutating in place); `k = max(1, len(page_images) // len(questions))`. -/
def associate (questions : List QuestionRec) (page_images : List String) :
    List QuestionRec :=
  if questions.isEmpty || page_images.isEmpty then questions
  else assocAux (max 1 (page_images.length / questions.length)) page_images 0 questions

/-- Function `parse_questions_from_text`: clean and filter the lines, run the scan
loop, then associate the page's images (the call is guarded exactly as on
line 214). -/
def parse_questions_from_text (text : String) (page_images : List String)
    (page_num : Nat) : List QuestionRec :=
  let questions := scanAux page_num none none [] none (pageLines text.toList)
  if !questions.isEmpty && !page_images.isEmpty then associate questions page_images
  else questions

/-- The extraction summary dict of `extract_all_content`. -/
structure Summary where
  total_pages : Nat
  total_questions : Nat
  total_images : Nat
  pages_processed : Nat
  extraction_errors : List String
deriving DecidableEq

/-- One page's outcome as seen by the `try`/`except` in
`extract_all_content`: either the page's `(text, images)` from
`extract_page_content`, or the message of the exception raised. -/
abbrev PageOutcome := Except String (String × List String)

/-- The page loop of `extract_all_content`, started at page index `pnum`;
returns `(all_questions, total_images, pages_processed, extraction_errors)`. -/
def aggAux : Nat → List PageOutcome → List QuestionRec × Nat × Nat × List String
  | _, [] => ([], 0, 0, [])
  | pnum, Except.ok (t, imgs) :: rest =>
    let r := aggAux (pnum + 1) rest
    (parse_questions_from_text t imgs pnum ++ r.1,
     imgs.length + r.2.1, r.2.2.1 + 1, r.2.2.2)
  | pnum, Except.error e :: rest =>
    let r := aggAux (pnum + 1) rest
    (r.1, r.2.1, r.2.2.1,
     ("Error processing page " ++ toString (pnum + 1) ++ ": " ++ e) :: r.2.2.2)

/-- Function `extract_all_content`, over the list of per-page outcomes; sets
`total_questions = len(all_questions)` after the loop. -/
def extract_all_content (pages : List PageOutcome) :
    List QuestionRec × Summary :=
  let r := aggAux 0 pages
  (r.1, ⟨pages.length, r.1.length, r.2.1, r.2.2.1, r.2.2.2⟩)

/-- Rule-1 test of the main loop on a stripped line: is this a question-start
line? -/
def isQStart (l : List Char) : Bool := (qMatchL (pstrip l)).isSome

/-- Number of question-start lines in a line list. -/
def countQ (ls : List (List Char)) : Nat := (ls.filter isQStart).length

/-- Number of images carried by a record list: one per non-empty `images`
field plus all `option_images` entries. -/
def imgCount (qs : List QuestionRec) : Nat :=
  (qs.map (fun q => (if q.images = "" then 0 else 1) + q.option_images.length)).sum

/-- A minimal question record exactly as the scanner finalizes it (empty
image fields), used to instantiate the associator theorems. -/
def sampleQ (n : Nat) : QuestionRec := ⟨some n, "q", [], none, 1, "", []⟩

theorem qMatchL_head_digit {cs : List Char} {v : Nat × List Char}
    (h : qMatchL cs = some v) : ∃ c r, cs = c :: r ∧ c.isDigit = true := by
  cases cs with
  | nil => simp [qMatchL] at h
  | cons c r =>
    refine ⟨c, r, rfl, ?_⟩
    by_contra hd
    simp only [Bool.not_eq_true] at hd
    simp [qMatchL, List.takeWhile_cons, hd] at h

theorem qMatchL_not_skip {cs : List Char} {v : Nat × List Char}
    (h : qMatchL cs = some v) :
    (cs.isEmpty || boilerplateL.contains cs) = false := by
  obtain ⟨c, r, rfl, hd⟩ := qMatchL_head_digit h
  rw [Bool.eq_false_iff]
  intro hk
  simp only [List.isEmpty_cons, Bool.false_or] at hk
  have hm : (c :: r) ∈ boilerplateL := by simpa using hk
  simp only [boilerplateL, List.mem_cons, List.not_mem_nil, or_false] at hm
  rcases hm with h1 | h1 | h1 <;>
    (injection h1 with h2 h3; subst h2; exact absurd hd (by decide))

theorem scanAux_nil (p : Nat) (qn : Option Nat) (cq : Option (List Char))
    (opts : List String) (ans : Option Char) :
    scanAux p qn cq opts ans [] =
      match cq with
      | some q => [finalizeRec p qn q opts ans]
      | none => [] := by
  rw [scanAux.eq_def]

theorem scanAux_skip (p : Nat) (qn : Option Nat) (cq : Option (List Char))
    (opts : List String) (ans : Option Char) (l : List Char) (rest : List (List Char))
    (h : ((pstrip l).isEmpty || boilerplateL.contains (pstrip l)) = true) :
    scanAux p qn cq opts ans (l :: rest) = scanAux p qn cq opts ans rest := by
  rw [scanAux.eq_def]
  simp only [h, if_true]

theorem scanAux_question (p : Nat) (qn : Option Nat) (cq : Option (List Char))
    (opts : List String) (ans : Option Char) (l : List Char) (rest : List (List Char))
    (n : Nat) (t : List Char) (h : qMatchL (pstrip l) = some (n, t)) :
    scanAux p qn cq opts ans (l :: rest) =
      (match cq with
       | some q => [finalizeRec p qn q opts ans]
       | none => []) ++
      scanAux p (some n)
        (some (contJoin (pstrip t) (rest.takeWhile (fun x => !contStop x))))
        [] none (rest.dropWhile (fun x => !contStop x)) := by
  rw [scanAux.eq_def]
  simp only [qMatchL_not_skip h, if_false, h, Bool.false_eq_true]

theorem scanAux_option (p : Nat) (qn : Option Nat) (cq : Option (List Char))
    (opts : List String) (ans : Option Char) (l : List Char) (rest : List (List Char))
    (c : Char) (txt : List Char)
    (hs : ((pstrip l).isEmpty || boilerplateL.contains (pstrip l)) = false)
    (hq : qMatchL (pstrip l) = none)
    (ho : optMatchL (pstrip l) = some (c, txt)) :
    scanAux p qn cq opts ans (l :: rest) =
      scanAux p qn cq (opts ++ [optionEntry c txt]) ans rest := by
  rw [scanAux.eq_def]
  simp only [hs, if_false, hq, ho, Bool.false_eq_true]

theorem scanAux_ansfound (p : Nat) (qn : Option Nat) (cq : Option (List Char))
    (opts : List String) (ans : Option Char) (l : List Char) (rest : List (List Char))
    (a : Char)
    (hs : ((pstrip l).isEmpty || boilerplateL.contains (pstrip l)) = false)
    (hq : qMatchL (pstrip l) = none)
    (ho : optMatchL (pstrip l) = none)
    (ha : startsWithAns (pstrip l) = true)
    (hf : ansSearchL (pstrip l) = some a) :
    scanAux p qn cq opts ans (l :: rest) = scanAux p qn cq opts (some a) rest := by
  rw [scanAux.eq_def]
  simp only [hs, if_false, hq, ho, ha, hf, if_true, Bool.false_eq_true]

theorem scanAux_ansmiss (p : Nat) (qn : Option Nat) (cq : Option (List Char))
    (opts : List String) (ans : Option Char) (l : List Char) (rest : List (List Char))
    (hs : ((pstrip l).isEmpty || boilerplateL.contains (pstrip l)) = false)
    (hq : qMatchL (pstrip l) = none)
    (ho : optMatchL (pstrip l) = none)
    (ha : startsWithAns (pstrip l) = true)
    (hf : ansSearchL (pstrip l) = none) :
    scanAux p qn cq opts ans (l :: rest) = scanAux p qn cq opts ans rest := by
  rw [scanAux.eq_def]
  simp only [hs, if_false, hq, ho, ha, hf, if_true, Bool.false_eq_true]

theorem scanAux_drop (p : Nat) (qn : Option Nat) (cq : Option (List Char))
    (opts : List String) (ans : Option Char) (l : List Char) (rest : List (List Char))
    (hs : ((pstrip l).isEmpty || boilerplateL.contains (pstrip l)) = false)
    (hq : qMatchL (pstrip l) = none)
    (ho : optMatchL (pstrip l) = none)
    (ha : startsWithAns (pstrip l) = false) :
    scanAux p qn cq opts ans (l :: rest) = scanAux p qn cq opts ans rest := by
  rw [scanAux.eq_def]
  simp only [hs, if_false, hq, ho, ha, Bool.false_eq_true, if_false]



theorem numDotL_of_qMatchL {cs : List Char} {v : Nat × List Char}
    (h : qMatchL cs = some v) : numDotL cs = true := by
  rw [qMatchL] at h
  by_cases hds : (cs.takeWhile Char.isDigit).isEmpty = true
  · rw [if_pos hds] at h; exact absurd h (by simp)
  · rw [if_neg hds] at h
    rcases hdrop : cs.drop (cs.takeWhile Char.isDigit).length with _ | ⟨c, r⟩ <;>
      rw [hdrop] at h
    · exact absurd h (by simp)
    · by_cases hc : c = '.'
      · subst hc
        rw [numDotL, hdrop]
        simp [hds]
      · exfalso
        split at h
        · rename_i heq
          exact hc (List.head_eq_of_cons_eq heq)
        · exact absurd h (by simp)

theorem qMatchL_of_skip {cs : List Char}
    (h : (cs.isEmpty || boilerplateL.contains cs) = true) : qMatchL cs = none := by
  cases hq : qMatchL cs with
  | none => rfl
  | some v => rw [qMatchL_not_skip hq] at h; exact absurd h (by simp)

theorem isQStart_false_of_not_contStop {l : List Char} (h : contStop l = false) :
    isQStart l = false := by
  unfold isQStart
  cases hq : qMatchL (pstrip l) with
  | none => rfl
  | some v =>
    have hn := numDotL_of_qMatchL hq
    simp only [contStop, hn] at h
    simp at h

theorem countQ_append (a b : List (List Char)) :
    countQ (a ++ b) = countQ a + countQ b := by
  simp [countQ, List.filter_append]

theorem countQ_takeWhile_contStop (rest : List (List Char)) :
    countQ (rest.takeWhile (fun x => !contStop x)) = 0 := by
  simp only [countQ, List.length_eq_zero, List.filter_eq_nil_iff]
  intro a ha
  have hp := List.mem_takeWhile_imp ha
  simp only [Bool.not_eq_true'] at hp
  simp [isQStart_false_of_not_contStop hp]


theorem scanAux_length (p : Nat) :
    ∀ (N : Nat) (ls : List (List Char)), ls.length ≤ N →
      ∀ (qn : Option Nat) (cq : Option (List Char)) (opts : List String)
        (ans : Option Char),
        (scanAux p qn cq opts ans ls).length =
          countQ ls + (match cq with | some _ => 1 | none => 0) := by
  intro N
  induction N with
  | zero =>
    intro ls hls qn cq opts ans
    have h0 : ls = [] := List.length_eq_zero.mp (Nat.le_zero.mp hls)
    subst h0
    rw [scanAux_nil]
    cases cq <;> simp [countQ]
  | succ N ih =>
    intro ls hls qn cq opts ans
    cases ls with
    | nil =>
      rw [scanAux_nil]
      cases cq <;> simp [countQ]
    | cons l rest =>
      have hr : rest.length ≤ N := by
        simp only [List.length_cons] at hls; omega
      by_cases hskip : ((pstrip l).isEmpty || boilerplateL.contains (pstrip l)) = true
      · rw [scanAux_skip _ _ _ _ _ _ _ hskip]
        have hq0 : isQStart l = false := by
          simp [isQStart, qMatchL_of_skip hskip]
        rw [ih rest hr qn cq opts ans]
        simp [countQ, List.filter_cons, hq0]
      · rw [Bool.not_eq_true] at hskip
        cases hq : qMatchL (pstrip l) with
        | some v =>
          obtain ⟨n, t⟩ := v
          rw [scanAux_question _ _ _ _ _ _ _ _ _ hq]
          rw [List.length_append]
          have hdl : (rest.dropWhile (fun x => !contStop x)).length ≤ N :=
            le_trans (List.dropWhile_sublist _).length_le hr
          rw [ih _ hdl]
          have h1 : isQStart l = true := by simp [isQStart, hq]
          have h3 : countQ rest =
              countQ (rest.takeWhile (fun x => !contStop x)) +
                countQ (rest.dropWhile (fun x => !contStop x)) := by
            rw [← countQ_append, List.takeWhile_append_dropWhile]
          rw [countQ_takeWhile_contStop] at h3
          cases cq <;> simp [countQ, List.filter_cons, h1] <;>
            simp [countQ] at h3 <;> omega
        | none =>
          have h0 : isQStart l = false := by simp [isQStart, hq]
          have hcnt : countQ (l :: rest) = countQ rest := by
            simp [countQ, List.filter_cons, h0]
          cases ho : optMatchL (pstrip l) with
          | some cv =>
            obtain ⟨c, txt⟩ := cv
            rw [scanAux_option _ _ _ _ _ _ _ _ _ hskip hq ho, ih rest hr, hcnt]
          | none =>
            by_cases ha : startsWithAns (pstrip l) = true
            · cases hf : ansSearchL (pstrip l) with
              | some a =>
                rw [scanAux_ansfound _ _ _ _ _ _ _ _ hskip hq ho ha hf,
                  ih rest hr, hcnt]
              | none =>
                rw [scanAux_ansmiss _ _ _ _ _ _ _ hskip hq ho ha hf,
                  ih rest hr, hcnt]
            · rw [Bool.not_eq_true] at ha
              rw [scanAux_drop _ _ _ _ _ _ _ hskip hq ho ha, ih rest hr, hcnt]

theorem assocAux_length (k : Nat) (imgs : List String) :
    ∀ (i : Nat) (qs : List QuestionRec),
      (assocAux k imgs i qs).length = qs.length := by
  intro i qs
  induction qs generalizing i with
  | nil => rfl
  | cons q rest ih => simp [assocAux, ih]

theorem associate_length (qs : List QuestionRec) (imgs : List String) :
    (associate qs imgs).length = qs.length := by
  unfold associate
  split
  · rfl
  · rw [assocAux_length]


theorem scanAux_inactive_state_irrel (p : Nat) :
    ∀ (N : Nat) (ls : List (List Char)), ls.length ≤ N →
      ∀ (qn qn' : Option Nat) (opts opts' : List String)
        (ans ans' : Option Char),
        scanAux p qn none opts ans ls = scanAux p qn' none opts' ans' ls := by
  intro N
  induction N with
  | zero =>
    intro ls hls qn qn' opts opts' ans ans'
    have h0 : ls = [] := List.length_eq_zero.mp (Nat.le_zero.mp hls)
    subst h0
    rw [scanAux_nil, scanAux_nil]
  | succ N ih =>
    intro ls hls qn qn' opts opts' ans ans'
    cases ls with
    | nil => rw [scanAux_nil, scanAux_nil]
    | cons l rest =>
      have hr : rest.length ≤ N := by
        simp only [List.length_cons] at hls; omega
      by_cases hskip : ((pstrip l).isEmpty || boilerplateL.contains (pstrip l)) = true
      · rw [scanAux_skip _ _ _ _ _ _ _ hskip, scanAux_skip _ _ _ _ _ _ _ hskip]
        exact ih rest hr qn qn' opts opts' ans ans'
      · rw [Bool.not_eq_true] at hskip
        cases hq : qMatchL (pstrip l) with
        | some v =>
          obtain ⟨n, t⟩ := v
          rw [scanAux_question _ _ _ _ _ _ _ _ _ hq,
            scanAux_question _ _ _ _ _ _ _ _ _ hq]
        | none =>
          cases ho : optMatchL (pstrip l) with
          | some cv =>
            obtain ⟨c, txt⟩ := cv
            rw [scanAux_option _ _ _ _ _ _ _ _ _ hskip hq ho,
              scanAux_option _ _ _ _ _ _ _ _ _ hskip hq ho]
            exact ih rest hr qn qn' _ _ ans ans'
          | none =>
            by_cases ha : startsWithAns (pstrip l) = true
            · cases hf : ansSearchL (pstrip l) with
              | some a =>
                rw [scanAux_ansfound _ _ _ _ _ _ _ _ hskip hq ho ha hf,
                  scanAux_ansfound _ _ _ _ _ _ _ _ hskip hq ho ha hf]
                exact ih rest hr qn qn' opts opts' _ _
              | none =>
                rw [scanAux_ansmiss _ _ _ _ _ _ _ hskip hq ho ha hf,
                  scanAux_ansmiss _ _ _ _ _ _ _ hskip hq ho ha hf]
                exact ih rest hr qn qn' opts opts' ans ans'
            · rw [Bool.not_eq_true] at ha
              rw [scanAux_drop _ _ _ _ _ _ _ hskip hq ho ha,
                scanAux_drop _ _ _ _ _ _ _ hskip hq ho ha]
              exact ih rest hr qn qn' opts opts' ans ans'


theorem assocAux_get? (k : Nat) (imgs : List String) :
    ∀ (qs : List QuestionRec) (i0 i : Nat) (h : i < qs.length),
      (assocAux k imgs i0 qs).get? i =
        some (assign k imgs (i0 + i) (qs.get ⟨i, h⟩)) := by
  intro qs
  induction qs with
  | nil => intro i0 i h; simp at h
  | cons q rest ih =>
    intro i0 i h
    cases i with
    | zero => simp [assocAux]
    | succ i =>
      have hi : i < rest.length := by
        simp only [List.length_cons] at h; omega
      simp only [assocAux, List.get?_cons_succ, List.get_cons_succ]
      rw [ih (i0 + 1) i hi]
      congr 2
      omega

theorem assocAux_imgCount (k : Nat) (imgs : List String) (hk : 1 ≤ k)
    (hne : "" ∉ imgs) :
    ∀ (qs : List QuestionRec) (i0 : Nat),
      (∀ q ∈ qs, q.images = "" ∧ q.option_images = []) →
      imgCount (assocAux k imgs i0 qs) =
        min ((i0 + qs.length) * k) imgs.length - min (i0 * k) imgs.length := by
  intro qs
  induction qs with
  | nil => intro i0 _; simp [assocAux, imgCount]
  | cons q rest ih =>
    intro i0 hfields
    have hq := hfields q (List.mem_cons_self q rest)
    have hrest : ∀ r ∈ rest, r.images = "" ∧ r.option_images = [] :=
      fun r hr => hfields r (List.mem_cons_of_mem q hr)
    simp only [assocAux, imgCount, List.map_cons, List.sum_cons]
    have hrec := ih (i0 + 1) hrest
    simp only [imgCount] at hrec
    rw [hrec]
    have hw : (if (assign k imgs i0 q).images = "" then 0 else 1) +
        (assign k imgs i0 q).option_images.length =
          min ((i0 + 1) * k) imgs.length - min (i0 * k) imgs.length := by
      unfold assign
      have hmul : (i0 + 1) * k = i0 * k + k := by ring
      rw [hmul]
      set s := i0 * k with hs0
      by_cases hs : s < imgs.length
      · simp only [hs, if_true]
        have hmem : imgs.getD s "" ∈ imgs := by
          rw [List.getD_eq_getElem imgs "" hs]
          exact List.getElem_mem hs
        have himg : ¬ imgs.getD s "" = "" := fun hck => hne (hck ▸ hmem)
        simp only [himg, if_false]
        by_cases hlt : s + 1 < min (s + k) imgs.length
        · simp only [hlt, if_true, List.length_take, List.length_drop]
          omega
        · simp only [hlt, if_false, List.length_nil]
          omega
      · simp only [hs, if_false, hq.1, if_true, hq.2, List.length_nil]
        omega
    rw [hw]
    have h1 : min (i0 * k) imgs.length ≤ min ((i0 + 1) * k) imgs.length := by
      apply min_le_min _ le_rfl
      exact Nat.mul_le_mul_right _ (by omega)
    have h2 : min ((i0 + 1) * k) imgs.length ≤
        min ((i0 + 1 + rest.length) * k) imgs.length := by
      apply min_le_min _ le_rfl
      exact Nat.mul_le_mul_right _ (by omega)
    have hkey := tsub_add_tsub_cancel h2 h1
    simp only [List.length_cons]
    have harith : (i0 + (rest.length + 1)) * k = (i0 + 1 + rest.length) * k := by ring
    rw [harith, Nat.add_comm]
    exact hkey


theorem aggAux_spec :
    ∀ (pages : List PageOutcome) (p0 : Nat),
      aggAux p0 pages =
        (((pages.enumFrom p0).map (fun pe =>
            match pe.2 with
            | Except.ok (t, imgs) => parse_questions_from_text t imgs pe.1
            | Except.error _ => [])).flatten,
         (pages.map (fun po =>
            match po with
            | Except.ok (_, imgs) => imgs.length
            | Except.error _ => 0)).sum,
         (pages.filter (fun po =>
            match po with
            | Except.ok _ => true
            | Except.error _ => false)).length,
         (pages.enumFrom p0).filterMap (fun pe =>
            match pe.2 with
            | Except.error e =>
              some ("Error processing page " ++ toString (pe.1 + 1) ++ ": " ++ e)
            | Except.ok _ => none)) := by
  intro pages
  induction pages with
  | nil => intro p0; simp [aggAux, List.enumFrom]
  | cons po rest ih =>
    intro p0
    cases po with
    | ok tv =>
      obtain ⟨t, imgs⟩ := tv
      simp only [aggAux, ih (p0 + 1), List.enumFrom, List.map_cons, List.flatten_cons,
        List.filter_cons, List.filterMap_cons, List.sum_cons]
      simp
    | error e =>
      simp only [aggAux, ih (p0 + 1), List.enumFrom, List.map_cons, List.flatten_cons,
        List.filter_cons, List.filterMap_cons, List.sum_cons]
      simp


theorem optStopL_iff (cs : List Char) :
    optStopL cs = true ↔
      ∃ c r, isOptLetter c = true ∧
        (cs = '[' :: c :: ']' :: r ∨ cs = c :: ']' :: r) := by
  rw [optStopL.eq_def]
  split
  · rename_i c rest
    constructor
    · intro h
      exact ⟨c, rest, h, Or.inl rfl⟩
    · rintro ⟨c', r', hc', h | h⟩
      · injection h with h1 h2
        injection h2 with h3 h4
        subst h3
        exact hc'
      · injection h with h1 h2
        rw [← h1] at hc'
        exact absurd hc' (by decide)
  · rename_i c rest hno
    constructor
    · intro h
      exact ⟨c, rest, h, Or.inr rfl⟩
    · rintro ⟨c', r', hc', h | h⟩
      · injection h with h1 h2
        injection h2 with h3 h4
        rw [← h3] at hc'
        exact absurd hc' (by decide)
      · injection h with h1 h2
        subst h1
        exact hc'
  · rename_i hno1 hno2
    constructor
    · intro h
      exact absurd h (by decide)
    · rintro ⟨c', r', hc', h | h⟩
      · exact absurd (hno1 c' r' h) not_false
      · exact absurd (hno2 c' r' h) not_false


/-- Claim C1 (code bug): on Scenario 1 the answer is NOT set. Any line
starting with "Ans" already matches the option pattern
`^\[?([A-D])\]?\s*(.+)?` (letter "A", trailing text "ns..."), and the
option branch is tried before the answer branch, so "Ans. [B]" is recorded
as the option "[A] ns. [B]" while `answer` stays `None` — the answer branch
is unreachable. The claimed record (answer "B", two options) is not
produced. -/
theorem c1_answer_branch_shadowed :
    parse_questions_from_text "1. What is 2+2?\n[A] 3\n[B] 4\nAns. [B]" [] 0 =
      [⟨some 1, "What is 2+2?", ["[A] 3", "[B] 4", "[A] ns. [B]"],
        none, 1, "", []⟩] ∧
    ∀ r : List Char, optMatchL ('A' :: 'n' :: 's' :: r) =
      some ('A', 'n' :: 's' :: r) := by
  constructor
  · have h : pageLines ("1. What is 2+2?\n[A] 3\n[B] 4\nAns. [B]".toList) =
        ["1. What is 2+2?".toList, "[A] 3".toList, "[B] 4".toList,
          "Ans. [B]".toList] := by decide
    simp only [parse_questions_from_text, h]
    simp +decide [scanAux, contStop, contJoin, pstrip, isWs, qMatchL, digitsVal,
      numDotL, optStopL, optMatchL, afterLetter, ansMatchAt, ansSearchL,
      startsWithAns, boilerplateL, optionEntry, finalizeRec, isOptLetter,
      associate, assocAux, assign]
  · intro r
    rfl

/-- Claim C2 counterexample: with lines "1. Q" and "B Paris" the claim
requires the lookahead to stop at "B Paris" (bare-letter option shape), which
would leave the question text "Q"; the code's stop pattern `^\[?[A-D]\]`
demands a closing "]", so "B Paris" is consumed as a continuation and the
question text is "Q B Paris". -/
theorem c2_counterexample :
    (parse_questions_from_text "1. Q\nB Paris" [] 0).map (fun r => r.question) =
      ["Q B Paris"] ∧ ("Q B Paris" : String) ≠ "Q" := by
  constructor
  · have h : pageLines ("1. Q\nB Paris".toList) =
        ["1. Q".toList, "B Paris".toList] := by decide
    simp only [parse_questions_from_text, h]
    simp +decide [scanAux, contStop, contJoin, pstrip, isWs, qMatchL, digitsVal,
      numDotL, optStopL, optMatchL, afterLetter, ansMatchAt, ansSearchL,
      startsWithAns, boilerplateL, optionEntry, finalizeRec, isOptLetter,
      associate, assocAux, assign]
  · decide

/-- Claim C2 (amended): after a question-start line the scanner space-joins
each immediately-following stripped line into the question text, stopping
exactly at the first line whose stripped form matches the bracketed option
stop (optional "[", letter A–D, then a MANDATORY "]" — a bare letter line
such as "B Paris" does not stop), or starts with "Ans", or matches
digits-then-period, or is exactly "??" or "?", or is empty; the lookahead is
confined to the rest of the page's line list and stops at its end. -/
theorem c2_amended_continuation (page_num : Nat) (qn : Option Nat)
    (cq : Option (List Char)) (opts : List String) (ans : Option Char)
    (l : List Char) (rest : List (List Char)) (n : Nat) (t : List Char)
    (h : qMatchL (pstrip l) = some (n, t)) :
    (scanAux page_num qn cq opts ans (l :: rest) =
      (match cq with
       | some q => [finalizeRec page_num qn q opts ans]
       | none => []) ++
      scanAux page_num (some n)
        (some (contJoin (pstrip t) (rest.takeWhile (fun x => !contStop x))))
        [] none (rest.dropWhile (fun x => !contStop x))) ∧
    ∀ x : List Char, contStop x = true ↔
      ((∃ c r, isOptLetter c = true ∧
          (pstrip x = '[' :: c :: ']' :: r ∨ pstrip x = c :: ']' :: r)) ∨
        startsWithAns (pstrip x) = true ∨ numDotL (pstrip x) = true ∨
        pstrip x = ['?', '?'] ∨ pstrip x = ['?'] ∨ pstrip x = []) := by
  constructor
  · exact scanAux_question page_num qn cq opts ans l rest n t h
  · intro x
    simp only [contStop, Bool.or_eq_true, optStopL_iff, beq_iff_eq,
      List.isEmpty_iff]
    simp only [or_assoc]

/-- Closed instance of `c2_amended_continuation` on the counterexample lines:
"B Paris" is consumed (takeWhile keeps it), and the scan continues on the
empty remainder. -/
theorem c2_amended_continuation_witness :
    scanAux 0 none none [] none ["1. Q".toList, "B Paris".toList] =
      scanAux 0 (some 1)
        (some (contJoin (pstrip ['Q'])
          (["B Paris".toList].takeWhile (fun x => !contStop x))))
        [] none (["B Paris".toList].dropWhile (fun x => !contStop x)) := by
  have := (c2_amended_continuation 0 none none [] none "1. Q".toList
    ["B Paris".toList] 1 ['Q'] (by decide)).1
  simpa using this

/-- Claim C6 counterexample: the boilerplate line "Vedantu" sitting between a
question-start line and the next option line is absorbed into the emitted
question text — the continuation lookahead does not filter boilerplate. -/
theorem c6_counterexample :
    (parse_questions_from_text "1. Q\nVedantu\n[A] x" [] 0).map
        (fun r => r.question) = ["Q " ++ "Vedantu"] ∧
      ("Q " ++ "Vedantu").toList = "Q ".toList ++ ['V', 'e', 'd', 'a', 'n', 't', 'u'] ∧
      ['V', 'e', 'd', 'a', 'n', 't', 'u'] ∈ boilerplateL := by
  refine ⟨?_, by decide, by decide⟩
  have h : pageLines ("1. Q\nVedantu\n[A] x".toList) =
      ["1. Q".toList, "Vedantu".toList, "[A] x".toList] := by decide
  simp only [parse_questions_from_text, h]
  simp +decide [scanAux, contStop, contJoin, pstrip, isWs, qMatchL, digitsVal,
    numDotL, optStopL, optMatchL, afterLetter, ansMatchAt, ansSearchL,
    startsWithAns, boilerplateL, optionEntry, finalizeRec, isOptLetter,
    associate, assocAux, assign]

/-- Claim C6 (amended): empty and boilerplate lines reaching the main
classification loop are dropped without altering the accumulator or the
output, so they never start a question, never add an option entry and never
set an answer; only the continuation lookahead can pull a boilerplate line
into question text. -/
theorem c6_amended_boilerplate_skipped (page_num : Nat) (qn : Option Nat)
    (cq : Option (List Char)) (opts : List String) (ans : Option Char)
    (l : List Char) (rest : List (List Char))
    (h : pstrip l = [] ∨ pstrip l ∈ boilerplateL) :
    scanAux page_num qn cq opts ans (l :: rest) =
      scanAux page_num qn cq opts ans rest := by
  apply scanAux_skip
  simp
  exact h

/-- Closed instance of `c6_amended_boilerplate_skipped` at the line
"Vedantu". -/
theorem c6_amended_boilerplate_skipped_witness :
    scanAux 0 none none [] none ["Vedantu".toList, "1. x".toList] =
      scanAux 0 none none [] none ["1. x".toList] :=
  c6_amended_boilerplate_skipped 0 none none [] none "Vedantu".toList
    ["1. x".toList] (by decide)


/-- Claim C5: the number of finalized question records emitted for a page
equals the number of question-start lines among the page's cleaned lines: a
new question-start finalizes the previous active accumulator, end of input
finalizes the last one, and the image associator never changes the record
count; with zero question-start lines the page yields zero records no matter
what stray option/answer lines occur. -/
theorem c5_record_count_eq_question_starts (text : String)
    (page_images : List String) (page_num : Nat) :
    (parse_questions_from_text text page_images page_num).length =
      countQ (pageLines text.toList) := by
  have h := scanAux_length page_num (pageLines text.toList).length
    (pageLines text.toList) le_rfl none none [] none
  simp only [parse_questions_from_text]
  split
  · rw [associate_length]
    simpa using h
  · simpa using h

/-- Claim C9: the scanner is deterministic — in this embedding
`parse_questions_from_text` is a pure function of the text, the page image
list and the page index (all accumulators in the source are local to one
call, and no state survives between invocations), so two runs on the same
input yield identical record lists. -/
theorem c9_deterministic (text : String) (page_images : List String)
    (page_num : Nat) :
    parse_questions_from_text text page_images page_num =
      parse_questions_from_text text page_images page_num := rfl

/-- Claim C10: while `current_question` is `None`, the accumulated question
number, option list and answer are irrelevant to the scan's output (they are
reset when the first question-start line arrives, before anything is
emitted); consequently any non-question-start line ahead of the first
question start — stray option and answer lines included — is discarded
without affecting any emitted record. -/
theorem c10_pre_question_strays_discarded :
    (∀ (page_num : Nat) (ls : List (List Char)) (qn qn' : Option Nat)
       (opts opts' : List String) (ans ans' : Option Char),
       scanAux page_num qn none opts ans ls =
         scanAux page_num qn' none opts' ans' ls) ∧
    (∀ (page_num : Nat) (l : List Char) (ls : List (List Char))
       (qn qn' : Option Nat) (opts opts' : List String)
       (ans ans' : Option Char),
       isQStart l = false →
       scanAux page_num qn none opts ans (l :: ls) =
         scanAux page_num qn' none opts' ans' ls) := by
  have hmain : ∀ (page_num : Nat) (ls : List (List Char)) (qn qn' : Option Nat)
      (opts opts' : List String) (ans ans' : Option Char),
      scanAux page_num qn none opts ans ls =
        scanAux page_num qn' none opts' ans' ls :=
    fun p ls qn qn' opts opts' ans ans' =>
      scanAux_inactive_state_irrel p ls.length ls le_rfl qn qn' opts opts' ans ans'
  refine ⟨hmain, ?_⟩
  intro p l ls qn qn' opts opts' ans ans' hns
  by_cases hskip : ((pstrip l).isEmpty || boilerplateL.contains (pstrip l)) = true
  · rw [scanAux_skip _ _ _ _ _ _ _ hskip]
    exact hmain p ls qn qn' opts opts' ans ans'
  · rw [Bool.not_eq_true] at hskip
    cases hq : qMatchL (pstrip l) with
    | some v =>
      exfalso
      simp [isQStart, hq] at hns
    | none =>
      cases ho : optMatchL (pstrip l) with
      | some cv =>
        obtain ⟨c, txt⟩ := cv
        rw [scanAux_option _ _ _ _ _ _ _ _ _ hskip hq ho]
        exact hmain p ls qn qn' _ _ ans ans'
      | none =>
        by_cases ha : startsWithAns (pstrip l) = true
        · cases hf : ansSearchL (pstrip l) with
          | some a =>
            rw [scanAux_ansfound _ _ _ _ _ _ _ _ hskip hq ho ha hf]
            exact hmain p ls qn qn' opts opts' _ _
          | none =>
            rw [scanAux_ansmiss _ _ _ _ _ _ _ hskip hq ho ha hf]
            exact hmain p ls qn qn' opts opts' ans ans'
        · rw [Bool.not_eq_true] at ha
          rw [scanAux_drop _ _ _ _ _ _ _ hskip hq ho ha]
          exact hmain p ls qn qn' opts opts' ans ans'

/-- Closed instance of `c10_pre_question_strays_discarded`: a stray option
line "[A] 3" and a stray answer accumulator before any question start leave
the output unchanged. -/
theorem c10_pre_question_strays_discarded_witness :
    scanAux 0 (some 7) none ["[A] junk"] (some 'C') ["[A] 3".toList] =
      scanAux 0 none none [] none ([] : List (List Char)) :=
  c10_pre_question_strays_discarded.2 0 "[A] 3".toList [] (some 7) none
    ["[A] junk"] [] (some 'C') none (by decide)

/-- Claim C8: the scanner is total — it is a function returning a record
list for every text, image list and page index (no failure value exists in
its type), and any line whose stripped form matches none of the three
classifications (question-start, option, answer token) is dropped without
altering the scan state or the output. -/
theorem c8_total_and_lenient :
    (∀ (text : String) (page_images : List String) (page_num : Nat),
       ∃ qs, parse_questions_from_text text page_images page_num = qs) ∧
    (∀ (page_num : Nat) (qn : Option Nat) (cq : Option (List Char))
       (opts : List String) (ans : Option Char) (l : List Char)
       (rest : List (List Char)),
       qMatchL (pstrip l) = none → optMatchL (pstrip l) = none →
       startsWithAns (pstrip l) = false →
       scanAux page_num qn cq opts ans (l :: rest) =
         scanAux page_num qn cq opts ans rest) := by
  constructor
  · intro text page_images page_num
    exact ⟨_, rfl⟩
  · intro p qn cq opts ans l rest hq ho ha
    by_cases hskip : ((pstrip l).isEmpty || boilerplateL.contains (pstrip l)) = true
    · exact scanAux_skip _ _ _ _ _ _ _ hskip
    · rw [Bool.not_eq_true] at hskip
      exact scanAux_drop _ _ _ _ _ _ _ hskip hq ho ha

/-- Closed instance of `c8_total_and_lenient`: the unrecognised line "zzz" is
dropped without changing the state. -/
theorem c8_total_and_lenient_witness :
    (∃ qs, parse_questions_from_text "zzz" [] 0 = qs) ∧
      scanAux 0 (some 3) (some ['q']) ["[A] x"] (some 'B') ["zzz".toList] =
        scanAux 0 (some 3) (some ['q']) ["[A] x"] (some 'B') [] :=
  ⟨c8_total_and_lenient.1 "zzz" [] 0,
    c8_total_and_lenient.2 0 (some 3) (some ['q']) ["[A] x"] (some 'B')
      "zzz".toList [] (by decide) (by decide) (by decide)⟩


theorem imgCount_eq_zero {qs : List QuestionRec}
    (h : ∀ q ∈ qs, q.images = "" ∧ q.option_images = []) : imgCount qs = 0 := by
  induction qs with
  | nil => rfl
  | cons q rest ih =>
    have hq := h q (List.mem_cons_self q rest)
    have hrest := ih (fun r hr => h r (List.mem_cons_of_mem q hr))
    simp only [imgCount, List.map_cons, List.sum_cons, hq.1, hq.2,
      List.length_nil]
    simp only [imgCount] at hrest
    simp [hrest]

/-- Claim C3: the associator is a no-op when either input is empty; otherwise
with k = max(1, n / m), question i receives the image slice
[i*k, min(i*k + k, n)): its first entry becomes `images` and the remaining
entries become `option_images` in order, while questions with i*k ≥ n are
left untouched. With two questions and three images, question 0 gets image
0, question 1 gets image 1, and image 2 goes to neither. -/
theorem c3_image_slices :
    (∀ (qs : List QuestionRec) (imgs : List String),
       qs = [] ∨ imgs = [] → associate qs imgs = qs) ∧
    (∀ (qs : List QuestionRec) (imgs : List String) (i : Nat)
       (h : i < qs.length), qs ≠ [] → imgs ≠ [] →
       (associate qs imgs).get? i =
         some (if i * max 1 (imgs.length / qs.length) < imgs.length then
             { qs.get ⟨i, h⟩ with
                 images := imgs.getD (i * max 1 (imgs.length / qs.length)) "",
                 option_images :=
                   (imgs.drop (i * max 1 (imgs.length / qs.length) + 1)).take
                     (min (i * max 1 (imgs.length / qs.length) +
                         max 1 (imgs.length / qs.length)) imgs.length -
                       (i * max 1 (imgs.length / qs.length) + 1)) }
           else qs.get ⟨i, h⟩)) ∧
    associate [sampleQ 1, sampleQ 2] ["img0", "img1", "img2"] =
      [⟨some 1, "q", [], none, 1, "img0", []⟩,
       ⟨some 2, "q", [], none, 1, "img1", []⟩] := by
  refine ⟨?_, ?_, by decide⟩
  · intro qs imgs h
    unfold associate
    rcases h with h | h <;> simp [h]
  · intro qs imgs i h hq hi
    unfold associate
    rw [if_neg (by simp [hq, hi])]
    rw [assocAux_get? _ _ qs 0 i h]
    congr 1
    unfold assign
    simp only [Nat.zero_add]
    by_cases hs : i * max 1 (imgs.length / qs.length) < imgs.length
    · simp only [hs, if_true]
      by_cases hlt : i * max 1 (imgs.length / qs.length) + 1 <
          min (i * max 1 (imgs.length / qs.length) +
            max 1 (imgs.length / qs.length)) imgs.length
      · simp only [hlt, if_true]
      · simp only [hlt, if_false]
        rw [Nat.sub_eq_zero_of_le (not_lt.mp hlt), List.take_zero]
    · simp only [hs, if_false]

/-- Closed instance of `c3_image_slices`: one question, one image. -/
theorem c3_image_slices_witness :
    (associate [sampleQ 1] ["i"]).get? 0 =
      some ⟨some 1, "q", [], none, 1, "i", []⟩ := by
  have h := c3_image_slices.2.1 [sampleQ 1] ["i"] 0 (by decide) (by decide)
    (by decide)
  rw [h]
  decide

/-- Claim C4 counterexample: with m = 3 questions and n = 2 images the code
assigns both images and drops none, but the claimed formula gives
dropped = n - m*floor(n/m) = 2 - 0 = 2, so sum + dropped = 4 ≠ 2 = n. -/
theorem c4_counterexample :
    imgCount (associate [sampleQ 1, sampleQ 2, sampleQ 3] ["i0", "i1"]) +
        (2 - 3 * (2 / 3)) ≠ 2 := by decide

/-- Claim C4 (amended): for scanner-shaped records (empty image fields) and
non-empty image paths, sum + dropped = n where dropped is the TRUNCATED
difference n ∸ m*max(1, floor(n/m)) — equal to n - m*floor(n/m) when n ≥ m,
and 0 when n < m (then every image is assigned) — and dropped < m whenever
m ≥ 1. -/
theorem c4_amended_conservation (qs : List QuestionRec) (imgs : List String)
    (hfields : ∀ q ∈ qs, q.images = "" ∧ q.option_images = [])
    (hne : "" ∉ imgs) (hm : qs ≠ []) :
    imgCount (associate qs imgs) +
        (imgs.length - qs.length * max 1 (imgs.length / qs.length)) =
      imgs.length ∧
    imgs.length - qs.length * max 1 (imgs.length / qs.length) < qs.length := by
  have hmpos : 0 < qs.length := List.length_pos.mpr hm
  constructor
  · by_cases hempty : imgs = []
    · subst hempty
      rw [show associate qs [] = qs from by unfold associate; simp]
      simp [imgCount_eq_zero hfields]
    · have hkey := assocAux_imgCount (max 1 (imgs.length / qs.length)) imgs
        (le_max_left _ _) hne qs 0 hfields
      unfold associate
      rw [if_neg (by simp [hm, hempty])]
      rw [hkey]
      simp only [Nat.zero_add, Nat.zero_mul, Nat.zero_min]
      set mk := qs.length * max 1 (imgs.length / qs.length) with hmk
      omega
  · have hdm := Nat.div_add_mod imgs.length qs.length
    have hmod := Nat.mod_lt imgs.length hmpos
    by_cases hd : imgs.length / qs.length = 0
    · rw [hd]
      simp only [Nat.max_self, max_eq_left (by omega : 1 ≥ 0)]
      rw [hd] at hdm
      simp only [Nat.mul_zero, Nat.zero_add] at hdm
      have hmax : max 1 0 = 1 := by decide
      omega
    · have hd1 : 1 ≤ imgs.length / qs.length := Nat.one_le_iff_ne_zero.mpr hd
      rw [max_eq_right hd1]
      set md := qs.length * (imgs.length / qs.length) with hmd
      omega

/-- Closed instance of `c4_amended_conservation`: one question, one image. -/
theorem c4_amended_conservation_witness :
    imgCount (associate [sampleQ 1] ["i"]) +
        (["i"].length -
          [sampleQ 1].length * max 1 (["i"].length / [sampleQ 1].length)) =
      ["i"].length ∧
    ["i"].length - [sampleQ 1].length * max 1 (["i"].length / [sampleQ 1].length) <
      [sampleQ 1].length :=
  c4_amended_conservation [sampleQ 1] ["i"] (by decide) (by decide) (by decide)

/-- Claim C7: per-page failures are isolated. For any sequence of per-page
outcomes: `total_questions` equals the length of the aggregated record list;
`pages_processed` counts exactly the successful pages; the error list holds
exactly one message per failing page, naming that page's 1-based index; the
aggregated records are the concatenation of the successful pages' parses
(failing pages contribute nothing); `total_images` sums only successful
pages' image counts; and the fold is total — no failure aborts the run. -/
theorem c7_page_failures_isolated (pages : List PageOutcome) :
    (extract_all_content pages).2.total_questions =
      (extract_all_content pages).1.length ∧
    (extract_all_content pages).2.total_pages = pages.length ∧
    (extract_all_content pages).2.pages_processed =
      (pages.filter (fun po =>
        match po with
        | Except.ok _ => true
        | Except.error _ => false)).length ∧
    (extract_all_content pages).2.total_images =
      (pages.map (fun po =>
        match po with
        | Except.ok (_, imgs) => imgs.length
        | Except.error _ => 0)).sum ∧
    (extract_all_content pages).1 =
      ((pages.enumFrom 0).map (fun pe =>
        match pe.2 with
        | Except.ok (t, imgs) => parse_questions_from_text t imgs pe.1
        | Except.error _ => [])).flatten ∧
    (extract_all_content pages).2.extraction_errors =
      (pages.enumFrom 0).filterMap (fun pe =>
        match pe.2 with
        | Except.error e =>
          some ("Error processing page " ++ toString (pe.1 + 1) ++ ": " ++ e)
        | Except.ok _ => none) := by
  unfold extract_all_content
  rw [aggAux_spec pages 0]
  exact ⟨rfl, rfl, rfl, rfl, rfl, rfl⟩

end PDFExtract
